import Mathlib

/-!
Verification of the core logic of the face-mosaic web app (src/script.js).

The embedded components are:
* the face tracker `updateFaces` (greedy nearest-centre matching);
* the click handler: display-to-buffer coordinate scaling and
  per-face toggle flipping (`clickToBuffer`, `toggleFacesAt`);
* the mosaic compositor `drawMosaics` over a small model of a 2D
  canvas context with clip regions and a save/restore stack;
* the recorder construction fallback in `startRecording`.

Coordinates and pixel positions are exact rationals.  JavaScript's
`Math.hypot` returns the Euclidean distance; the embedding stores
squared distances instead, because squaring is strictly monotone on
nonnegative reals, so every comparison in the source is preserved:
`dist < minDist` becomes `distSq < minDistSq`, and
`minDist < THRESHOLD` becomes `0 < THRESHOLD ∧ minDistSq < THRESHOLD ^ 2`
(for a negative or zero threshold the source comparison is false since
`hypot ≥ 0`, and so is the embedded one).  Theorems that speak about
Euclidean distance itself use `Real.sqrt` of the stored square.
-/

namespace MosaicApp

/-- A detection bounding box, `d.box` in the source: `{x, y, width, height}`. -/
structure Box where
  x : ℚ
  y : ℚ
  width : ℚ
  height : ℚ
  deriving DecidableEq, Repr

/-- One entry of the global `faces` array: `{box, isMosaicOn}`. -/
structure TrackedFace where
  box : Box
  isMosaicOn : Bool
  deriving DecidableEq, Repr

/-- Centre of a box: `(box.x + box.width / 2, box.y + box.height / 2)`. -/
def boxCenter (b : Box) : ℚ × ℚ :=
  (b.x + b.width / 2, b.y + b.height / 2)

/-- Squared Euclidean distance between two points; the square of the
source's `Math.hypot(centerX - faceCenterX, centerY - faceCenterY)`. -/
def distSq (p q : ℚ × ℚ) : ℚ :=
  (p.1 - q.1) ^ 2 + (p.2 - q.2) ^ 2

/-- Squared distance from a point to a tracked face's centre. -/
def faceDistSq (c : ℚ × ℚ) (f : TrackedFace) : ℚ :=
  distSq c (boxCenter f.box)

/-- `MATCH_THRESHOLD = Math.max(box.width, box.height) * 1.5`. -/
def matchThreshold (b : Box) : ℚ :=
  max b.width b.height * (3 / 2)

/-- The `for (const face of faces)` loop body of `updateFaces`: starting
from the accumulator `(closest, minDist)` (`none` plays the role of
`closest = null, minDist = Infinity`; any face beats `Infinity`), replace
the accumulator exactly when the candidate's distance is strictly
smaller. -/
def findClosestGo (c : ℚ × ℚ) :
    List TrackedFace → Option (TrackedFace × ℚ) → Option (TrackedFace × ℚ)
  | [], acc => acc
  | face :: rest, acc =>
    let d := faceDistSq c face
    match acc with
    | none => findClosestGo c rest (some (face, d))
    | some (g, m) =>
      if d < m then findClosestGo c rest (some (face, d))
      else findClosestGo c rest (some (g, m))

/-- The whole scan: `closest = null; minDist = Infinity; for ... in faces`. -/
def findClosest (c : ℚ × ℚ) (faces : List TrackedFace) :
    Option (TrackedFace × ℚ) :=
  findClosestGo c faces none

/-- The body of the `detections.map` callback in `updateFaces`: compute
the detection's centre, scan the previous faces, and inherit
`isMosaicOn` from the closest previous face exactly when
`closest && minDist < MATCH_THRESHOLD` (`closest` is non-null iff the
scan saw at least one face), defaulting to `true` otherwise.  The
source's `minDist < MATCH_THRESHOLD` on Euclidean distances is encoded
on the stored squares as
`0 < MATCH_THRESHOLD ∧ minDistSq < MATCH_THRESHOLD ^ 2`, which is
equivalent because `minDist = √minDistSq ≥ 0`. -/
def trackOne (faces : List TrackedFace) (box : Box) : TrackedFace :=
  let c := boxCenter box
  match findClosest c faces with
  | none => ⟨box, true⟩
  | some (closest, minDistSq) =>
    if 0 < matchThreshold box ∧ minDistSq < matchThreshold box ^ 2 then
      ⟨box, closest.isMosaicOn⟩
    else
      ⟨box, true⟩

/-- `updateFaces(detections)` of the source, with the previous global
`faces` array passed explicitly and the new array returned: map each
detection to a tracked face via `trackOne`. -/
def updateFaces (detections : List Box) (faces : List TrackedFace) :
    List TrackedFace :=
  detections.map (trackOne faces)

/-- `f` is the face the source's scan settles on: it occurs in the list,
its (squared) centre distance is minimal over the whole list, and it is
strictly closer than every face occurring before it (a later face
replaces the incumbent only on strictly smaller distance, so ties go to
the earliest). Minimality of the squared distance is the same as
minimality of the Euclidean distance since squaring is strictly
monotone on nonnegatives. -/
def IsFirstMin (c : ℚ × ℚ) (l : List TrackedFace) (f : TrackedFace) : Prop :=
  ∃ pre post, l = pre ++ f :: post ∧
    (∀ e ∈ l, faceDistSq c f ≤ faceDistSq c e) ∧
    (∀ e ∈ pre, faceDistSq c f < faceDistSq c e)

/-! ### Click handling (`handleCanvasClick`) -/

/-- The display-to-buffer mapping of `handleCanvasClick`:
`scaleX = canvas.width / rect.width`, `clickX = dispX * scaleX`, and
likewise for `y`.  `(dispX, dispY)` is the click point relative to the
canvas element (`e.clientX - rect.left`, `e.clientY - rect.top`),
`(dispW, dispH)` the displayed size, `(bufW, bufH)` the buffer size. -/
def clickToBuffer (dispX dispY dispW dispH bufW bufH : ℚ) : ℚ × ℚ :=
  (dispX * (bufW / dispW), dispY * (bufH / dispH))

/-- The containment test of `handleCanvasClick`:
`clickX >= x && clickX <= x + width && clickY >= y && clickY <= y + height`. -/
def containsPoint (b : Box) (clickX clickY : ℚ) : Bool :=
  clickX ≥ b.x && clickX ≤ b.x + b.width &&
    clickY ≥ b.y && clickY ≤ b.y + b.height

/-- One iteration of the `faces.forEach` loop in `handleCanvasClick`:
when the face's box contains the (buffer-space) click point, negate its
`isMosaicOn` (`face.isMosaicOn = !face.isMosaicOn`); otherwise leave
the face untouched. -/
def toggleOne (clickX clickY : ℚ) (face : TrackedFace) : TrackedFace :=
  if containsPoint face.box clickX clickY then
    { face with isMosaicOn := !face.isMosaicOn }
  else
    face

/-- The whole `faces.forEach` of `handleCanvasClick` as a pure function
on the faces array (the source mutates the array elements in place). -/
def toggleFacesAt (clickX clickY : ℚ) (faces : List TrackedFace) :
    List TrackedFace :=
  faces.map (toggleOne clickX clickY)

/-! ### Mosaic compositing (`drawMosaics`)

The 2D canvas context is modelled by its pixel contents (an abstract
value at every rational point), the current clip region, and the stack
of saved clip regions (`ctx.save` / `ctx.restore` save and restore the
clip; the only other state the compositor touches is the pixels via
`drawImage`).  `drawImage` writes a source pixel at every point of the
target rectangle that the current clip admits. -/

/-- Abstract pixel values. -/
def Pixel : Type := ℕ

/-- A model of the main canvas's 2D context state. -/
structure Ctx where
  pixels : ℚ × ℚ → Pixel
  clip : ℚ × ℚ → Bool
  saved : List ((ℚ × ℚ) → Bool)

/-- `ctx.save()`: push the current clip region. -/
def ctxSave (c : Ctx) : Ctx :=
  { c with saved := c.clip :: c.saved }

/-- `ctx.restore()`: pop the most recently saved clip region (a restore
with an empty stack is a no-op, as on a real canvas). -/
def ctxRestore (c : Ctx) : Ctx :=
  match c.saved with
  | [] => c
  | r :: rest => { c with clip := r, saved := rest }

/-- `ctx.clip()` after tracing a path: intersect the current clip with
the traced region. -/
def ctxClip (region : ℚ × ℚ → Bool) (c : Ctx) : Ctx :=
  { c with clip := fun p => c.clip p && region p }

/-- Membership of a point in the axis-aligned rectangle of a box. -/
def inRect (b : Box) (p : ℚ × ℚ) : Bool :=
  b.x ≤ p.1 && p.1 ≤ b.x + b.width && b.y ≤ p.2 && p.2 ≤ b.y + b.height

/-- The ellipse traced by `ctx.ellipse(x + width / 2, y + height / 2,
width / 2 * 0.8, height / 2 * 1.0, 0, 0, 2 * Math.PI)`: centred at the
box centre with semi-axes `rx = width / 2 * 0.8` and
`ry = height / 2 * 1.0`.  Membership `((px-cx)/rx)² + ((py-cy)/ry)² ≤ 1`
is stated multiplied out to stay inside ℚ. -/
def inEllipse (b : Box) (p : ℚ × ℚ) : Bool :=
  let cx := b.x + b.width / 2
  let cy := b.y + b.height / 2
  let rx := b.width / 2 * (4 / 5)
  let ry := b.height / 2 * 1
  (p.1 - cx) ^ 2 * ry ^ 2 + (p.2 - cy) ^ 2 * rx ^ 2 ≤ rx ^ 2 * ry ^ 2

/-- `ctx.drawImage(mosaicCanvas, 0, 0, width, height, x, y, width,
height)`: at every point of the target rectangle admitted by the
current clip, write the corresponding source pixel. -/
def ctxDrawImage (src : ℚ × ℚ → Pixel) (target : Box) (c : Ctx) : Ctx :=
  { c with
    pixels := fun p =>
      if inRect target p && c.clip p then src p else c.pixels p }

/-- One iteration of the `faces.forEach` loop in `drawMosaics`: skip the
face when `!face.isMosaicOn`; otherwise save the context, trace and
install the elliptical clip, draw the pixelated buffer (abstracted as
`src face`) over the face's box, and restore the context. -/
def drawFaceMosaic (src : TrackedFace → ℚ × ℚ → Pixel) (face : TrackedFace)
    (c : Ctx) : Ctx :=
  if face.isMosaicOn then
    ctxRestore (ctxDrawImage (src face) face.box
      (ctxClip (inEllipse face.box) (ctxSave c)))
  else
    c

/-- `drawMosaics()` over an explicit faces array: fold the per-face
draw over the list in order. -/
def drawMosaics (src : TrackedFace → ℚ × ℚ → Pixel)
    (faces : List TrackedFace) (c : Ctx) : Ctx :=
  faces.foldl (fun c face => drawFaceMosaic src face c) c

/-! ### Recorder construction (`startRecording`) -/

/-- The options object `{ mimeType: 'video/webm;codecs=vp9' }`. -/
structure RecorderOptions where
  mimeType : String
  deriving DecidableEq, Repr

/-- The configured options passed to the first constructor attempt. -/
def recorderOptions : RecorderOptions :=
  ⟨"video/webm;codecs=vp9"⟩

/-- The `try { mediaRecorder = new MediaRecorder(stream, options) }
catch (e) { mediaRecorder = new MediaRecorder(stream) }` block of
`startRecording`.  The host's `MediaRecorder` constructor is an
abstract parameter `ctor`, taking the stream and optional options and
returning `none` when construction throws; streams and recorder
instances are abstract types. -/
def constructRecorder {Stream Recorder : Type}
    (ctor : Stream → Option RecorderOptions → Option Recorder)
    (stream : Stream) : Option Recorder :=
  match ctor stream (some recorderOptions) with
  | some r => some r
  | none => ctor stream none

/-! ### Concrete fixtures used by witness statements -/

/-- A concrete detection box. -/
def witBox : Box := ⟨0, 0, 10, 10⟩

/-- A concrete previously tracked face close to `witBox`, toggled off. -/
def witPrev : List TrackedFace := [⟨⟨1, 1, 10, 10⟩, false⟩]

/-- A concrete model of the host `MediaRecorder` constructor that
throws on the configured options and succeeds without options: streams
are numbered, a recorder is the pair of its stream and the options it
was built with. -/
def witCtor : ℕ → Option RecorderOptions → Option (ℕ × Option RecorderOptions) :=
  fun stream opts =>
    match opts with
    | some _ => none
    | none => some (stream, none)

/-- A concrete pixel source for compositor witnesses. -/
def witSrc : TrackedFace → ℚ × ℚ → Pixel :=
  fun _ _ => (1 : ℕ)

/-- A concrete initial context for compositor witnesses: all pixels 0,
no clipping, empty save stack. -/
def witCtx : Ctx :=
  ⟨fun _ => (0 : ℕ), fun _ => true, []⟩

/-! ### Lemmas about the tracker scan -/

theorem distSq_nonneg (p q : ℚ × ℚ) : 0 ≤ distSq p q := by
  unfold distSq
  positivity

theorem faceDistSq_nonneg (c : ℚ × ℚ) (f : TrackedFace) :
    0 ≤ faceDistSq c f :=
  distSq_nonneg _ _

theorem distSq_eq_zero {p q : ℚ × ℚ} (h : distSq p q = 0) : p = q := by
  unfold distSq at h
  have h1 : p.1 - q.1 = 0 := by nlinarith [sq_nonneg (p.1 - q.1), sq_nonneg (p.2 - q.2)]
  have h2 : p.2 - q.2 = 0 := by nlinarith [sq_nonneg (p.1 - q.1), sq_nonneg (p.2 - q.2)]
  exact Prod.ext_iff.mpr ⟨by linarith, by linarith⟩

theorem findClosestGo_ne_none (c : ℚ × ℚ) :
    ∀ (l : List TrackedFace) (g : TrackedFace) (m : ℚ),
      findClosestGo c l (some (g, m)) ≠ none := by
  intro l
  induction l with
  | nil => intro g m h; simp [findClosestGo] at h
  | cons b rest ih =>
    intro g m h
    simp only [findClosestGo] at h
    split at h
    · exact ih _ _ h
    · exact ih _ _ h

theorem findClosest_eq_none {c : ℚ × ℚ} {l : List TrackedFace}
    (h : findClosest c l = none) : l = [] := by
  cases l with
  | nil => rfl
  | cons b rest =>
    exact absurd h (findClosestGo_ne_none c rest b (faceDistSq c b))

theorem findClosestGo_spec (c : ℚ × ℚ) :
    ∀ (l : List TrackedFace) (g f : TrackedFace) (m : ℚ),
      findClosestGo c l (some (g, faceDistSq c g)) = some (f, m) →
      m = faceDistSq c f ∧ IsFirstMin c (g :: l) f := by
  intro l
  induction l with
  | nil =>
    intro g f m h
    simp only [findClosestGo, Option.some.injEq, Prod.mk.injEq] at h
    obtain ⟨hf, hm⟩ := h
    subst hf
    refine ⟨hm.symm, [], [], rfl, ?_, ?_⟩
    · intro e he
      simp only [List.mem_singleton] at he
      subst he
      exact le_refl _
    · intro e he
      simp at he
  | cons b rest ih =>
    intro g f m h
    simp only [findClosestGo] at h
    split at h
    · -- the candidate `b` is strictly closer: it replaces the incumbent
      rename_i hlt
      obtain ⟨hm, pre, post, hdec, hmin, hpre⟩ := ih b f m h
      have hfb : faceDistSq c f ≤ faceDistSq c b :=
        hmin b (List.mem_cons_self b rest)
      refine ⟨hm, g :: pre, post, by simp [hdec], ?_, ?_⟩
      · intro e he
        rcases List.mem_cons.mp he with he | he
        · subst he
          exact le_trans hfb (le_of_lt hlt)
        · exact hmin e he
      · intro e he
        rcases List.mem_cons.mp he with he | he
        · subst he
          exact lt_of_le_of_lt hfb hlt
        · exact hpre e he
    · -- the incumbent `g` keeps the lead (ties included)
      rename_i hge
      have hle : faceDistSq c g ≤ faceDistSq c b := le_of_not_lt hge
      obtain ⟨hm, pre, post, hdec, hmin, hpre⟩ := ih g f m h
      cases pre with
      | nil =>
        simp only [List.nil_append, List.cons.injEq] at hdec
        obtain ⟨hfg, hrest⟩ := hdec
        subst hfg
        subst hrest
        refine ⟨hm, [], b :: rest, rfl, ?_, ?_⟩
        · intro e he
          rcases List.mem_cons.mp he with he | he
          · subst he; exact le_refl _
          · rcases List.mem_cons.mp he with he | he
            · subst he; exact hle
            · exact hmin e (List.mem_cons_of_mem g he)
        · intro e he
          simp at he
      | cons g' pre' =>
        simp only [List.cons_append, List.cons.injEq] at hdec
        obtain ⟨hgg, hrest⟩ := hdec
        subst hgg
        have hfg : faceDistSq c f < faceDistSq c g :=
          hpre g (List.mem_cons_self g pre')
        refine ⟨hm, g :: b :: pre', post, by simp [hrest], ?_, ?_⟩
        · intro e he
          rcases List.mem_cons.mp he with he | he
          · subst he; exact le_of_lt hfg
          · rcases List.mem_cons.mp he with he | he
            · subst he; exact le_of_lt (lt_of_lt_of_le hfg hle)
            · exact hmin e (List.mem_cons_of_mem g he)
        · intro e he
          rcases List.mem_cons.mp he with he | he
          · subst he; exact hfg
          · rcases List.mem_cons.mp he with he | he
            · subst he; exact lt_of_lt_of_le hfg hle
            · exact hpre e (List.mem_cons_of_mem g he)

theorem findClosest_spec {c : ℚ × ℚ} {l : List TrackedFace}
    {f : TrackedFace} {m : ℚ} (h : findClosest c l = some (f, m)) :
    m = faceDistSq c f ∧ IsFirstMin c l f := by
  cases l with
  | nil => simp [findClosest, findClosestGo] at h
  | cons b rest =>
    have h' : findClosestGo c rest (some (b, faceDistSq c b)) = some (f, m) := h
    exact findClosestGo_spec c rest b f m h'

theorem distSq_self (p : ℚ × ℚ) : distSq p p = 0 := by
  unfold distSq
  ring

/-- Bridge between the source's comparison on Euclidean distances and
the embedding's comparison on squared distances. -/
theorem sqrt_lt_threshold_iff (m T : ℚ) :
    Real.sqrt (m : ℝ) < (T : ℝ) ↔ 0 < T ∧ m < T ^ 2 := by
  constructor
  · intro h
    have hT : (0 : ℝ) < (T : ℝ) := lt_of_le_of_lt (Real.sqrt_nonneg _) h
    have h2 : (m : ℝ) < (T : ℝ) ^ 2 := (Real.sqrt_lt' hT).mp h
    exact ⟨by exact_mod_cast hT, by exact_mod_cast h2⟩
  · rintro ⟨hT, h2⟩
    have hT' : (0 : ℝ) < (T : ℝ) := by exact_mod_cast hT
    exact (Real.sqrt_lt' hT').mpr (by exact_mod_cast h2)

theorem trackOne_box (p : List TrackedFace) (box : Box) :
    (trackOne p box).box = box := by
  rcases hfc : findClosest (boxCenter box) p with _ | ⟨f, m⟩
  · simp [trackOne, hfc]
  · by_cases hacc : 0 < matchThreshold box ∧ m < matchThreshold box ^ 2
    · simp [trackOne, hfc, hacc]
    · simp [trackOne, hfc, hacc]

theorem updateFaces_getElem? (d : List Box) (p : List TrackedFace) (n : ℕ) :
    (updateFaces d p)[n]? = Option.map (trackOne p) d[n]? :=
  List.getElem?_map (trackOne p) d n

/-- Claim C1: the tracker processes each detection by computing its
centre and scanning all previous faces for the one at minimum Euclidean
centre distance, ties broken by the first-encountered face in the
previous collection's order (`IsFirstMin`); the match is accepted
exactly when that minimum distance is strictly below
`max(detection.width, detection.height) * 1.5`, in which case the
output face inherits the matched face's `isMosaicOn`; an unmatched
detection (or one with no previous faces to scan) gets
`isMosaicOn = true`. -/
theorem updateFaces_greedy_spec (d : List Box) (p : List TrackedFace)
    (i : ℕ) (box : Box) (hbox : d[i]? = some box) :
    ∃ tf : TrackedFace, (updateFaces d p)[i]? = some tf ∧ tf.box = box ∧
      ((p = [] ∧ tf.isMosaicOn = true) ∨
        ∃ f : TrackedFace, IsFirstMin (boxCenter box) p f ∧
          (∀ e ∈ p, Real.sqrt (faceDistSq (boxCenter box) f : ℝ) ≤
            Real.sqrt (faceDistSq (boxCenter box) e : ℝ)) ∧
          (Real.sqrt (faceDistSq (boxCenter box) f : ℝ) <
              (matchThreshold box : ℝ) →
            tf.isMosaicOn = f.isMosaicOn) ∧
          (¬ Real.sqrt (faceDistSq (boxCenter box) f : ℝ) <
              (matchThreshold box : ℝ) →
            tf.isMosaicOn = true)) := by
  refine ⟨trackOne p box, ?_, trackOne_box p box, ?_⟩
  · rw [updateFaces_getElem?, hbox]
    rfl
  rcases hfc : findClosest (boxCenter box) p with _ | ⟨f, m⟩
  · exact Or.inl ⟨findClosest_eq_none hfc, by simp [trackOne, hfc]⟩
  obtain ⟨hm, hfmin⟩ := findClosest_spec hfc
  subst hm
  have hbridge := sqrt_lt_threshold_iff (faceDistSq (boxCenter box) f)
    (matchThreshold box)
  refine Or.inr ⟨f, hfmin, ?_, ?_, ?_⟩
  · intro e he
    obtain ⟨pre, post, hdec, hmin, hpre⟩ := hfmin
    have : (faceDistSq (boxCenter box) f : ℝ) ≤ faceDistSq (boxCenter box) e := by
      exact_mod_cast hmin e he
    exact Real.sqrt_le_sqrt this
  · intro hsq
    have hacc := hbridge.mp hsq
    simp [trackOne, hfc, hacc]
  · intro hsq
    have hacc : ¬ (0 < matchThreshold box ∧
        faceDistSq (boxCenter box) f < matchThreshold box ^ 2) :=
      fun hc => hsq (hbridge.mpr hc)
    simp [trackOne, hfc, hacc]

/-- Witness for claim C1 at a concrete input: one detection at
`witBox`, one previous face at distance `√2` with `isMosaicOn = false`. -/
theorem updateFaces_greedy_spec_witness :
    ([witBox] : List Box)[0]? = some witBox ∧
    (∃ tf : TrackedFace,
      (updateFaces [witBox] witPrev)[0]? = some tf ∧ tf.box = witBox ∧
      ((witPrev = [] ∧ tf.isMosaicOn = true) ∨
        ∃ f : TrackedFace, IsFirstMin (boxCenter witBox) witPrev f ∧
          (∀ e ∈ witPrev, Real.sqrt (faceDistSq (boxCenter witBox) f : ℝ) ≤
            Real.sqrt (faceDistSq (boxCenter witBox) e : ℝ)) ∧
          (Real.sqrt (faceDistSq (boxCenter witBox) f : ℝ) <
              (matchThreshold witBox : ℝ) →
            tf.isMosaicOn = f.isMosaicOn) ∧
          (¬ Real.sqrt (faceDistSq (boxCenter witBox) f : ℝ) <
              (matchThreshold witBox : ℝ) →
            tf.isMosaicOn = true))) :=
  ⟨rfl, updateFaces_greedy_spec [witBox] witPrev 0 witBox rfl⟩

/-- Claim C2: on a concrete input — two detections whose centres are
both within threshold of the single previous face, which was toggled
off — the tracker matches that same previous face to both detections
and copies `isMosaicOn = false` onto both output faces (the default for
an unmatched detection would have been `true`); the previous face is
not removed from the candidate pool after the first match. -/
theorem updateFaces_duplicate_match :
    updateFaces [⟨0, 0, 10, 10⟩, ⟨2, 0, 10, 10⟩] [⟨⟨0, 0, 10, 10⟩, false⟩] =
      [⟨⟨0, 0, 10, 10⟩, false⟩, ⟨⟨2, 0, 10, 10⟩, false⟩] := by
  norm_num [updateFaces, trackOne, findClosest, findClosestGo, faceDistSq,
    distSq, boxCenter, matchThreshold]

/-- Claim C3: the tracker's output is built fresh with exactly one
tracked face per input detection — its length equals the number of
detections, the `i`-th output carries the `i`-th detection's box, and
every output box is a detection box, so no previous face that matched
no detection survives into the output. -/
theorem updateFaces_fresh_output (d : List Box) (p : List TrackedFace) :
    (updateFaces d p).length = d.length ∧
    (∀ i : ℕ, ∀ box : Box, d[i]? = some box →
      ∃ tf : TrackedFace, (updateFaces d p)[i]? = some tf ∧ tf.box = box) ∧
    (∀ tf ∈ updateFaces d p, tf.box ∈ d) := by
  refine ⟨List.length_map _ _, ?_, ?_⟩
  · intro i box hbox
    exact ⟨trackOne p box, by rw [updateFaces_getElem?, hbox]; rfl,
      trackOne_box p box⟩
  · intro tf htf
    obtain ⟨box, hbox, rfl⟩ := List.mem_map.mp htf
    rw [trackOne_box]
    exact hbox

/-- Witness for claim C3 at a concrete input. -/
theorem updateFaces_fresh_output_witness :
    (updateFaces [witBox] witPrev).length = ([witBox] : List Box).length ∧
    (∀ i : ℕ, ∀ box : Box, ([witBox] : List Box)[i]? = some box →
      ∃ tf : TrackedFace,
        (updateFaces [witBox] witPrev)[i]? = some tf ∧ tf.box = box) ∧
    (∀ tf ∈ updateFaces [witBox] witPrev, tf.box ∈ ([witBox] : List Box)) :=
  updateFaces_fresh_output [witBox] witPrev

/-- Claim C4: a frame with no detections drops every tracked face
(including any with `isMosaicOn = false`), and a detection in a later
frame — wherever it is, in particular near a dropped face's old
location — starts a brand-new face with the default `isMosaicOn = true`
rather than the dropped face's old flag. -/
theorem updateFaces_toggle_reset_on_loss (p : List TrackedFace) (b : Box) :
    updateFaces [] p = [] ∧
    updateFaces [b] (updateFaces [] p) = [⟨b, true⟩] :=
  ⟨rfl, rfl⟩

/-- Claim C9: the tracker is idempotent on self-matching input — when
every detection has a positive longest side and detections at distinct
indices have distinct centres, re-running the tracker on its own output
with the same detections changes nothing, because each detection
re-matches the face built from itself at centre distance zero. -/
theorem updateFaces_idempotent (d : List Box) (p : List TrackedFace)
    (hpos : ∀ b ∈ d, 0 < max b.width b.height)
    (hsep : ∀ i j : ℕ, ∀ bi bj : Box, d[i]? = some bi → d[j]? = some bj →
      boxCenter bi = boxCenter bj → i = j) :
    updateFaces d (updateFaces d p) = updateFaces d p := by
  apply List.ext_getElem?
  intro n
  rw [updateFaces_getElem? d (updateFaces d p) n, updateFaces_getElem? d p n]
  rcases hbn : d[n]? with _ | b
  · rfl
  simp only [Option.map_some']
  congr 1
  have hqn : (updateFaces d p)[n]? = some (trackOne p b) := by
    rw [updateFaces_getElem?, hbn]; rfl
  have hqfbox : (trackOne p b).box = b := trackOne_box p b
  have hqfdist : faceDistSq (boxCenter b) (trackOne p b) = 0 := by
    unfold faceDistSq
    rw [hqfbox]
    exact distSq_self _
  rcases hfc : findClosest (boxCenter b) (updateFaces d p) with _ | ⟨f, m⟩
  · have hnil : updateFaces d p = [] := findClosest_eq_none hfc
    rw [hnil] at hqn
    simp at hqn
  obtain ⟨hm, pre, post, hdec, hmin, hpre⟩ := findClosest_spec hfc
  have hqfmem : trackOne p b ∈ updateFaces d p :=
    List.mem_iff_getElem?.mpr ⟨n, hqn⟩
  have hmle : faceDistSq (boxCenter b) f ≤ 0 := by
    have h := hmin (trackOne p b) hqfmem
    rw [hqfdist] at h
    exact h
  have hfeq0 : faceDistSq (boxCenter b) f = 0 :=
    le_antisymm hmle (faceDistSq_nonneg _ _)
  have hcent : boxCenter b = boxCenter f.box := distSq_eq_zero hfeq0
  have hfmem : f ∈ updateFaces d p := by
    rw [hdec]
    exact List.mem_append.mpr (Or.inr (List.mem_cons_self _ _))
  obtain ⟨k, hk⟩ := List.mem_iff_getElem?.mp hfmem
  rcases hbk : d[k]? with _ | bk
  · rw [updateFaces_getElem?, hbk] at hk
    simp at hk
  have hfk : f = trackOne p bk := by
    rw [updateFaces_getElem?, hbk] at hk
    simpa using hk.symm
  have hfbox : f.box = bk := by
    rw [hfk]
    exact trackOne_box p bk
  have hkn : k = n := by
    refine hsep k n bk b hbk hbn ?_
    rw [← hfbox]
    exact hcent.symm
  have hfqf : f = trackOne p b := by
    rw [hkn, hqn] at hk
    exact (Option.some.inj hk).symm
  have hb : b ∈ d := List.mem_iff_getElem?.mpr ⟨n, hbn⟩
  have hT : 0 < matchThreshold b := by
    unfold matchThreshold
    have := hpos b hb
    positivity
  have hacc : 0 < matchThreshold b ∧ m < matchThreshold b ^ 2 := by
    refine ⟨hT, ?_⟩
    rw [hm, hfeq0]
    exact pow_pos hT 2
  have hlhs : trackOne (updateFaces d p) b = ⟨b, f.isMosaicOn⟩ := by
    simp [trackOne, hfc, hacc]
  rw [hlhs, hfqf]
  have hfix : (⟨b, (trackOne p b).isMosaicOn⟩ : TrackedFace) =
      ⟨(trackOne p b).box, (trackOne p b).isMosaicOn⟩ := by
    rw [trackOne_box]
  rw [hfix]

/-- Witness for claim C9 at a concrete input. -/
theorem updateFaces_idempotent_witness :
    (∀ b ∈ ([witBox] : List Box), 0 < max b.width b.height) ∧
    (∀ i j : ℕ, ∀ bi bj : Box, ([witBox] : List Box)[i]? = some bi →
      ([witBox] : List Box)[j]? = some bj →
      boxCenter bi = boxCenter bj → i = j) ∧
    updateFaces [witBox] (updateFaces [witBox] witPrev) =
      updateFaces [witBox] witPrev := by
  have h1 : ∀ b ∈ ([witBox] : List Box), 0 < max b.width b.height := by
    intro b hb
    simp only [List.mem_singleton] at hb
    subst hb
    norm_num [witBox]
  have h2 : ∀ i j : ℕ, ∀ bi bj : Box, ([witBox] : List Box)[i]? = some bi →
      ([witBox] : List Box)[j]? = some bj →
      boxCenter bi = boxCenter bj → i = j := by
    intro i j bi bj hi hj _
    rcases i with _ | i
    · rcases j with _ | j
      · rfl
      · simp at hj
    · simp at hi
  exact ⟨h1, h2, updateFaces_idempotent [witBox] witPrev h1 h2⟩

/-! ### Click handling theorems -/

theorem toggleFacesAt_getElem? (clickX clickY : ℚ)
    (faces : List TrackedFace) (n : ℕ) :
    (toggleFacesAt clickX clickY faces)[n]? =
      Option.map (toggleOne clickX clickY) faces[n]? :=
  List.getElem?_map (toggleOne clickX clickY) faces n

theorem toggleOne_box (clickX clickY : ℚ) (face : TrackedFace) :
    (toggleOne clickX clickY face).box = face.box := by
  unfold toggleOne
  split <;> rfl

/-- Claim C5: the click handler flips `isMosaicOn` of every face whose
rectangle contains the click point — not just the topmost — leaves
every non-containing face untouched (so a point outside all boxes
changes nothing), and modifies no face's bounding box. -/
theorem click_toggles_every_containing_box (clickX clickY : ℚ)
    (faces : List TrackedFace) :
    (toggleFacesAt clickX clickY faces).length = faces.length ∧
    (∀ i : ℕ, ∀ face : TrackedFace, faces[i]? = some face →
      ∃ face' : TrackedFace,
        (toggleFacesAt clickX clickY faces)[i]? = some face' ∧
        face'.box = face.box ∧
        (containsPoint face.box clickX clickY = true →
          face'.isMosaicOn = !face.isMosaicOn) ∧
        (containsPoint face.box clickX clickY = false → face' = face)) ∧
    ((∀ face ∈ faces, containsPoint face.box clickX clickY = false) →
      toggleFacesAt clickX clickY faces = faces) := by
  refine ⟨List.length_map _ _, ?_, ?_⟩
  · intro i face hface
    refine ⟨toggleOne clickX clickY face, ?_, toggleOne_box _ _ _, ?_, ?_⟩
    · rw [toggleFacesAt_getElem?, hface]
      rfl
    · intro hc
      simp [toggleOne, hc]
    · intro hc
      simp [toggleOne, hc]
  · intro hall
    apply List.ext_getElem?
    intro n
    rw [toggleFacesAt_getElem?]
    rcases hf : faces[n]? with _ | face
    · rfl
    · have hc := hall face (List.mem_iff_getElem?.mpr ⟨n, hf⟩)
      simp [toggleOne, hc]

/-- Witness for claim C5 at a concrete input. -/
theorem click_toggles_every_containing_box_witness :
    (toggleFacesAt 5 5 witPrev).length = witPrev.length ∧
    (∀ i : ℕ, ∀ face : TrackedFace, witPrev[i]? = some face →
      ∃ face' : TrackedFace,
        (toggleFacesAt 5 5 witPrev)[i]? = some face' ∧
        face'.box = face.box ∧
        (containsPoint face.box 5 5 = true →
          face'.isMosaicOn = !face.isMosaicOn) ∧
        (containsPoint face.box 5 5 = false → face' = face)) ∧
    ((∀ face ∈ witPrev, containsPoint face.box 5 5 = false) →
      toggleFacesAt 5 5 witPrev = witPrev) :=
  click_toggles_every_containing_box 5 5 witPrev

/-- Claim C6: the click handler maps a display-space point to buffer
coordinates by multiplying with the buffer/display size ratios; with
equal sizes the mapping is the identity, and at half display width the
mapped x-coordinate doubles. -/
theorem clickToBuffer_scaling (dx dy dw dh bw bh : ℚ)
    (hdw : 0 < dw) (hdh : 0 < dh) :
    clickToBuffer dx dy dw dh bw bh = (dx * bw / dw, dy * bh / dh) ∧
    (dw = bw ∧ dh = bh → clickToBuffer dx dy dw dh bw bh = (dx, dy)) ∧
    (dw = bw / 2 → (clickToBuffer dx dy dw dh bw bh).1 = 2 * dx) := by
  refine ⟨?_, ?_, ?_⟩
  · unfold clickToBuffer
    rw [mul_div_assoc, mul_div_assoc]
  · rintro ⟨rfl, rfl⟩
    unfold clickToBuffer
    rw [div_self (ne_of_gt hdw), div_self (ne_of_gt hdh), mul_one, mul_one]
  · intro h
    have hbw : bw ≠ 0 := by
      intro h0
      rw [h0] at h
      norm_num at h
      rw [h] at hdw
      exact lt_irrefl 0 hdw
    unfold clickToBuffer
    rw [h]
    field_simp
    ring

/-- Witness for claim C6 at a concrete input. -/
theorem clickToBuffer_scaling_witness :
    (0 : ℚ) < 100 ∧ (0 : ℚ) < 50 ∧
    (clickToBuffer 3 4 100 50 200 100 = (3 * 200 / 100, 4 * 100 / 50) ∧
      ((100 : ℚ) = 200 ∧ (50 : ℚ) = 100 →
        clickToBuffer 3 4 100 50 200 100 = (3, 4)) ∧
      ((100 : ℚ) = 200 / 2 →
        (clickToBuffer 3 4 100 50 200 100).1 = 2 * 3)) :=
  ⟨by norm_num, by norm_num,
    clickToBuffer_scaling 3 4 100 50 200 100 (by norm_num) (by norm_num)⟩

/-- Claim C10: containment at the click handler is boundary-inclusive —
a click landing exactly on a face rectangle's edge (with the other
coordinate in range) satisfies the containment test, because it uses
non-strict comparisons on all four sides, and so flips that face's
`isMosaicOn`. -/
theorem click_boundary_inclusive (faces : List TrackedFace) (i : ℕ)
    (face : TrackedFace) (hface : faces[i]? = some face) (cx cy : ℚ)
    (hedge :
      ((cx = face.box.x ∨ cx = face.box.x + face.box.width) ∧
        0 ≤ face.box.width ∧
        face.box.y ≤ cy ∧ cy ≤ face.box.y + face.box.height) ∨
      ((cy = face.box.y ∨ cy = face.box.y + face.box.height) ∧
        0 ≤ face.box.height ∧
        face.box.x ≤ cx ∧ cx ≤ face.box.x + face.box.width)) :
    containsPoint face.box cx cy = true ∧
    (toggleFacesAt cx cy faces)[i]? =
      some ⟨face.box, !face.isMosaicOn⟩ := by
  have hc : containsPoint face.box cx cy = true := by
    simp only [containsPoint, Bool.and_eq_true, decide_eq_true_eq, ge_iff_le]
    rcases hedge with ⟨hx, hw, hy1, hy2⟩ | ⟨hy, hh, hx1, hx2⟩
    · rcases hx with rfl | rfl
      · exact ⟨⟨⟨le_refl _, by linarith⟩, hy1⟩, hy2⟩
      · exact ⟨⟨⟨by linarith, le_refl _⟩, hy1⟩, hy2⟩
    · rcases hy with rfl | rfl
      · exact ⟨⟨⟨hx1, hx2⟩, le_refl _⟩, by linarith⟩
      · exact ⟨⟨⟨hx1, hx2⟩, by linarith⟩, le_refl _⟩
  refine ⟨hc, ?_⟩
  rw [toggleFacesAt_getElem?, hface]
  simp [toggleOne, hc]

/-- Witness for claim C10 at a concrete input: a click at `(1, 5)`,
exactly on the left edge of `witPrev`'s face box `(1, 1, 10, 10)`. -/
theorem click_boundary_inclusive_witness :
    witPrev[0]? = some ⟨⟨1, 1, 10, 10⟩, false⟩ ∧
    (containsPoint (⟨1, 1, 10, 10⟩ : Box) 1 5 = true ∧
      (toggleFacesAt 1 5 witPrev)[0]? =
        some ⟨⟨1, 1, 10, 10⟩, !false⟩) := by
  refine ⟨rfl, ?_⟩
  refine click_boundary_inclusive witPrev 0 ⟨⟨1, 1, 10, 10⟩, false⟩ rfl 1 5 ?_
  left
  refine ⟨Or.inl rfl, by norm_num, by norm_num, by norm_num⟩

/-! ### Mosaic compositor theorems -/

theorem drawFaceMosaic_clip_saved (src : TrackedFace → ℚ × ℚ → Pixel)
    (face : TrackedFace) (c : Ctx) :
    (drawFaceMosaic src face c).clip = c.clip ∧
    (drawFaceMosaic src face c).saved = c.saved := by
  unfold drawFaceMosaic
  split
  · exact ⟨rfl, rfl⟩
  · exact ⟨rfl, rfl⟩

theorem drawFaceMosaic_disabled (src : TrackedFace → ℚ × ℚ → Pixel)
    (face : TrackedFace) (c : Ctx) (h : face.isMosaicOn = false) :
    drawFaceMosaic src face c = c := by
  simp [drawFaceMosaic, h]

theorem drawFaceMosaic_enabled_pixels (src : TrackedFace → ℚ × ℚ → Pixel)
    (face : TrackedFace) (c : Ctx) (h : face.isMosaicOn = true) (p : ℚ × ℚ) :
    (drawFaceMosaic src face c).pixels p =
      if inRect face.box p && c.clip p && inEllipse face.box p
      then src face p else c.pixels p := by
  by_cases h1 : inRect face.box p = true <;>
    by_cases h2 : c.clip p = true <;>
    by_cases h3 : inEllipse face.box p = true <;>
    simp [drawFaceMosaic, ctxRestore, ctxDrawImage, ctxClip, ctxSave,
      h, h1, h2, h3]

theorem drawMosaics_clip_saved (src : TrackedFace → ℚ × ℚ → Pixel) :
    ∀ (faces : List TrackedFace) (c : Ctx),
      (drawMosaics src faces c).clip = c.clip ∧
      (drawMosaics src faces c).saved = c.saved := by
  intro faces
  induction faces with
  | nil => intro c; exact ⟨rfl, rfl⟩
  | cons a l ih =>
    intro c
    have hstep := drawFaceMosaic_clip_saved src a c
    have hrec := ih (drawFaceMosaic src a c)
    have hcons : drawMosaics src (a :: l) c =
        drawMosaics src l (drawFaceMosaic src a c) := rfl
    rw [hcons]
    exact ⟨by rw [hrec.1, hstep.1], by rw [hrec.2, hstep.2]⟩

theorem drawMosaics_pixels_outside (src : TrackedFace → ℚ × ℚ → Pixel) :
    ∀ (faces : List TrackedFace) (c : Ctx) (p : ℚ × ℚ),
      (∀ face ∈ faces, face.isMosaicOn = true →
        (inRect face.box p && inEllipse face.box p) = false) →
      (drawMosaics src faces c).pixels p = c.pixels p := by
  intro faces
  induction faces with
  | nil => intro c p _; rfl
  | cons a l ih =>
    intro c p hall
    have hcons : drawMosaics src (a :: l) c =
        drawMosaics src l (drawFaceMosaic src a c) := rfl
    rw [hcons,
      ih (drawFaceMosaic src a c) p
        (fun f hf ht => hall f (List.mem_cons_of_mem a hf) ht)]
    by_cases ha : a.isMosaicOn = true
    · rw [drawFaceMosaic_enabled_pixels src a c ha p]
      have hout := hall a (List.mem_cons_self a l) ha
      by_cases h1 : inRect a.box p = true
      · by_cases h3 : inEllipse a.box p = true
        · rw [h1, h3] at hout
          simp at hout
        · simp only [Bool.not_eq_true] at h3
          simp [h3]
      · simp only [Bool.not_eq_true] at h1
        simp [h1]
    · simp only [Bool.not_eq_true] at ha
      rw [drawFaceMosaic_disabled src a c ha]

/-- Claim C7: the compositor draws a mosaic for exactly the faces with
`isMosaicOn = true` — a disabled face leaves the context untouched — and
an enabled face's draw writes the pixelated source only inside the
intersection of the face rectangle, the pre-existing clip, and the
ellipse centred on the rectangle with semi-axes `width/2 · 0.8` and
`height/2 · 1.0`; the drawing state is saved before the clip is
installed and restored afterwards, so the clip region and save stack
after compositing are exactly what they were before, and a point
outside every enabled face's clipped ellipse keeps its old pixel. -/
theorem drawMosaics_spec (src : TrackedFace → ℚ × ℚ → Pixel)
    (faces : List TrackedFace) (c : Ctx) :
    (drawMosaics src faces c).clip = c.clip ∧
    (drawMosaics src faces c).saved = c.saved ∧
    (∀ face : TrackedFace, face.isMosaicOn = false →
      drawFaceMosaic src face c = c) ∧
    (∀ face : TrackedFace, face.isMosaicOn = true → ∀ p : ℚ × ℚ,
      (drawFaceMosaic src face c).pixels p =
        if inRect face.box p && c.clip p && inEllipse face.box p
        then src face p else c.pixels p) ∧
    (∀ p : ℚ × ℚ,
      (∀ face ∈ faces, face.isMosaicOn = true →
        (inRect face.box p && inEllipse face.box p) = false) →
      (drawMosaics src faces c).pixels p = c.pixels p) :=
  ⟨(drawMosaics_clip_saved src faces c).1,
    (drawMosaics_clip_saved src faces c).2,
    fun face h => drawFaceMosaic_disabled src face c h,
    fun face h p => drawFaceMosaic_enabled_pixels src face c h p,
    fun p hall => drawMosaics_pixels_outside src faces c p hall⟩

/-- Witness for claim C7 at a concrete input. -/
theorem drawMosaics_spec_witness :
    (drawMosaics witSrc witPrev witCtx).clip = witCtx.clip ∧
    (drawMosaics witSrc witPrev witCtx).saved = witCtx.saved ∧
    (∀ face : TrackedFace, face.isMosaicOn = false →
      drawFaceMosaic witSrc face witCtx = witCtx) ∧
    (∀ face : TrackedFace, face.isMosaicOn = true → ∀ p : ℚ × ℚ,
      (drawFaceMosaic witSrc face witCtx).pixels p =
        if inRect face.box p && witCtx.clip p && inEllipse face.box p
        then witSrc face p else witCtx.pixels p) ∧
    (∀ p : ℚ × ℚ,
      (∀ face ∈ witPrev, face.isMosaicOn = true →
        (inRect face.box p && inEllipse face.box p) = false) →
      (drawMosaics witSrc witPrev witCtx).pixels p = witCtx.pixels p) :=
  drawMosaics_spec witSrc witPrev witCtx

/-! ### Recorder fallback theorem -/

/-- Claim C8: `startRecording` first attempts to construct the recorder
with the configured codec options; if and only if that attempt throws
does it fall back to a default, option-less construction on the same
stream, and when the fallback construction succeeds, recording starts
with the fallback recorder. -/
theorem constructRecorder_fallback {Stream Recorder : Type}
    (ctor : Stream → Option RecorderOptions → Option Recorder)
    (stream : Stream) :
    (∀ r : Recorder, ctor stream (some recorderOptions) = some r →
      constructRecorder ctor stream = some r) ∧
    (ctor stream (some recorderOptions) = none →
      constructRecorder ctor stream = ctor stream none) ∧
    (∀ r : Recorder, ctor stream (some recorderOptions) = none →
      ctor stream none = some r →
      constructRecorder ctor stream = some r) := by
  refine ⟨?_, ?_, ?_⟩
  · intro r h
    unfold constructRecorder
    rw [h]
  · intro h
    unfold constructRecorder
    rw [h]
  · intro r h hfb
    unfold constructRecorder
    rw [h, hfb]

/-- Witness for claim C8 at a concrete input: a constructor model that
throws on the configured options and succeeds without options. -/
theorem constructRecorder_fallback_witness :
    witCtor 7 (some recorderOptions) = none ∧
    witCtor 7 none = some (7, none) ∧
    constructRecorder witCtor 7 = some (7, none) :=
  ⟨rfl, rfl, (constructRecorder_fallback witCtor 7).2.2 (7, none) rfl rfl⟩

end MosaicApp
